import Mathlib

/-!
Shallow embedding of the `request` package (expect-digital/go-request), the
declarative HTTP-request-to-struct decoding engine, in its final tag-schema
revision (struct tag `oas`, origins `path|query|body|header` inline, query
styles `form|spaceDelimited|pipeDelimited|deepObject`).

Modelling conventions:
  * Go strings are Lean `String`s; `[]byte(s)` is the UTF-8 byte list of `s`.
  * The Go `map[string][]string` query index is an association list
    `List (String × List String)`; Go map iteration order is unordered, the
    list order stands for one concrete order.
  * Machine integers are `Nat`/`Int` with explicit `2 ^ w` bounds, mirroring
    `strconv.ParseUint`/`ParseInt` with `bitSize = w`.
  * All query delimiters of the source (`","`, `" "`, `"|"`) are single
    characters, so `strings.Split` is modelled by a single-character split.
  * Pointer indirection (lazy allocation), the `encoding.TextUnmarshaler`
    escape hatch and the float/complex scalar kinds are omitted from the
    embedded type universe; no claim below concerns them.  The JSON/XML body
    unmarshalers and the path-value provider are external collaborators and
    are passed in as parameters.
-/

namespace GoReq

/-- Lower-casing of a string, character by character (models `strings.ToLower`
for the ASCII names used by the engine). -/
def strToLower (s : String) : String :=
  String.mk (s.data.map Char.toLower)

/-- `strings.TrimSpace`: drop whitespace from both ends. -/
def trimSpace (s : String) : String :=
  String.mk (((s.data.dropWhile Char.isWhitespace).reverse.dropWhile Char.isWhitespace).reverse)

/-- Split a character list around every occurrence of the (single-character)
separator; models `strings.Split` for the one-character delimiters used by the
source (`,`, space, `|`). `split "" = [""]` as in Go. -/
def splitChar (sep : Char) : List Char → List (List Char)
  | [] => [[]]
  | c :: rest =>
    if c = sep then
      [] :: splitChar sep rest
    else
      match splitChar sep rest with
      | [] => [[c]]
      | b :: bs => (c :: b) :: bs

/-- `strings.Split(s, sep)` for a single-character separator. -/
def splitString (sep : Char) (s : String) : List String :=
  (splitChar sep s.data).map String.mk

/-- `strings.CutPrefix(s, pre)`: the remainder after the prefix, when `pre`
is a prefix of `s`. -/
def cutPre (s pre : String) : Option String :=
  if pre.data.isPrefixOf s.data then
    some (String.mk (s.data.drop pre.data.length))
  else
    none

/-- `strings.CutSuffix(s, suf)`: the front before the suffix, when `suf` is a
suffix of `s`. -/
def cutSuf (s suf : String) : Option String :=
  if suf.data.isSuffixOf s.data then
    some (String.mk (s.data.take (s.data.length - suf.data.length)))
  else
    none

/-- `strings.HasPrefix`. -/
def hasPre (s pre : String) : Bool :=
  pre.data.isPrefixOf s.data

/-- The UTF-8 encoding of one character, as naturals. -/
def charUTF8 (c : Char) : List Nat :=
  let v := c.toNat
  if v < 128 then [v]
  else if v < 2048 then [192 + v / 64, 128 + v % 64]
  else if v < 65536 then [224 + v / 4096, 128 + (v / 64) % 64, 128 + v % 64]
  else [240 + v / 262144, 128 + (v / 4096) % 64, 128 + (v / 64) % 64, 128 + v % 64]

/-- The UTF-8 bytes of a string, as naturals; models Go `[]byte(s)`. -/
def stringBytes (s : String) : List Nat :=
  s.data.flatMap charUTF8

/-- The numeric value of a nonempty all-digit character list, `none` on any
other input.  This is the base-10 digit phase shared by `strconv.ParseUint`
and `strconv.ParseInt`. -/
def digitsVal (cs : List Char) : Option Nat :=
  if cs.isEmpty then
    none
  else
    cs.foldl
      (fun acc c =>
        acc.bind fun n => if c.isDigit then some (10 * n + (c.toNat - 48)) else none)
      (some 0)

/-- Decimal value of a string with no sign, `none` on empty or non-digit input. -/
def decDigits (s : String) : Option Nat :=
  digitsVal s.data

/-- Sign handling of `strconv.ParseInt`: strip one optional leading `+`/`-`. -/
def splitSign (s : String) : Bool × List Char :=
  match s.data with
  | '-' :: rest => (true, rest)
  | '+' :: rest => (false, rest)
  | cs => (false, cs)

/-- Error text of a Go `strconv.NumError`. -/
def numErr (fn s reason : String) : String :=
  "strconv." ++ fn ++ ": parsing \x22" ++ s ++ "\x22: " ++ reason

/-- `strconv.ParseBool`: the canonical Go boolean literals. -/
def parseBool (s : String) : Except String Bool :=
  if s = "1" ∨ s = "t" ∨ s = "T" ∨ s = "true" ∨ s = "TRUE" ∨ s = "True" then
    .ok true
  else if s = "0" ∨ s = "f" ∨ s = "F" ∨ s = "false" ∨ s = "FALSE" ∨ s = "False" then
    .ok false
  else
    .error (numErr "ParseBool" s "invalid syntax")

/-- `strconv.ParseUint(s, 10, bitSize)`: no sign allowed, digits only,
value below `2 ^ bitSize`. -/
def parseUint (s : String) (bitSize : Nat) : Except String Nat :=
  match decDigits s with
  | none => .error (numErr "ParseUint" s "invalid syntax")
  | some n =>
    if n < 2 ^ bitSize then
      .ok n
    else
      .error (numErr "ParseUint" s "value out of range")

/-- `strconv.ParseInt(s, 10, bitSize)`: optional sign, then the `ParseUint`
digit phase with the same bit-size ceiling, then the signed cutoff checks
(`cutoff = 2 ^ (bitSize - 1)`). -/
def parseInt (s : String) (bitSize : Nat) : Except String Int :=
  let p := splitSign s
  match digitsVal p.2 with
  | none => .error (numErr "ParseInt" s "invalid syntax")
  | some un =>
    if 2 ^ bitSize ≤ un then
      .error (numErr "ParseInt" s "value out of range")
    else if !p.1 ∧ 2 ^ (bitSize - 1) ≤ un then
      .error (numErr "ParseInt" s "value out of range")
    else if p.1 ∧ 2 ^ (bitSize - 1) < un then
      .error (numErr "ParseInt" s "value out of range")
    else
      .ok (if p.1 then -(un : Int) else (un : Int))

/-- Specification-side reading of a signed decimal numeral: the exact integer
denoted by the string (one optional sign, then digits), with no width bound.
Used to state what "the value" of a raw string is, independently of any
bit-size ceiling. -/
def decimalInt (s : String) : Option Int :=
  let p := splitSign s
  (digitsVal p.2).map fun n => if p.1 then -(Int.ofNat n) else Int.ofNat n

mutual
/-- The statically known shape of a decode target slot, the fragment of Go's
reflection kinds exercised by the engine: `bool`, `string`, the unsigned and
signed integer kinds of width `w` bits (`w = Size() * 8`), slices, and structs
(whose fields carry their `oas` tag). -/
inductive Shape where
  | sBool : Shape
  | sString : Shape
  | sUint (w : Nat) : Shape
  | sInt (w : Nat) : Shape
  | sSlice (elem : Shape) : Shape
  | sStruct (fields : FieldList) : Shape

/-- The fields of a struct shape: Go field name, optional `oas` tag value,
and field shape, in declaration order. -/
inductive FieldList where
  | nil : FieldList
  | cons (fname : String) (tag : Option String) (fshape : Shape) (rest : FieldList) : FieldList
end

/-- Convenience constructor for struct field lists. -/
def fieldsOf : List (String × Option String × Shape) → FieldList
  | [] => .nil
  | (fname, tag, fshape) :: rest => .cons fname tag fshape (fieldsOf rest)

/-- A decoded Go value.  `gBytes` is the `[]uint8` byte-storage form set by
`reflect.Value.SetBytes`; a nil slice is modelled as `gSlice []`. -/
inductive GoValue where
  | gBool (b : Bool) : GoValue
  | gString (s : String) : GoValue
  | gUint (w : Nat) (n : Nat) : GoValue
  | gInt (w : Nat) (n : Int) : GoValue
  | gBytes (bs : List Nat) : GoValue
  | gSlice (elems : List GoValue) : GoValue
  | gStruct (fields : List (String × GoValue)) : GoValue

mutual
/-- The Go zero value of a shape. -/
def zeroValue : Shape → GoValue
  | .sBool => .gBool false
  | .sString => .gString ""
  | .sUint w => .gUint w 0
  | .sInt w => .gInt w 0
  | .sSlice _ => .gSlice []
  | .sStruct fields => .gStruct (zeroFields fields)

/-- Zero values of all fields of a struct shape. -/
def zeroFields : FieldList → List (String × GoValue)
  | .nil => []
  | .cons fname _ fshape rest => (fname, zeroValue fshape) :: zeroFields rest
end

/-- The `reflect.Kind` name of a shape, as printed in error messages. -/
def kindName : Shape → String
  | .sBool => "bool"
  | .sString => "string"
  | .sUint w => "uint" ++ toString w
  | .sInt w => "int" ++ toString w
  | .sSlice _ => "slice"
  | .sStruct _ => "struct"

/-- The query index `map[string][]string`: parameter key to its ordered raw
value sequence. -/
abbrev QueryIndex : Type := List (String × List String)

/-- Go map lookup `query[k]` on the association-list model. -/
def lookupQuery : QueryIndex → String → Option (List String)
  | [], _ => none
  | (k0, vs) :: rest, k => if k0 = k then some vs else lookupQuery rest k

/-- Go map assignment `m[k] = v`: replace an existing binding or add one. -/
def mapInsert : QueryIndex → String → List String → QueryIndex
  | [], k, v => [(k, v)]
  | (k0, v0) :: rest, k, v =>
    if k0 = k then (k, v) :: rest else (k0, v0) :: mapInsert rest k v

/-- Decoder-level default query configuration (`queryConf` of the source). -/
structure QueryConf where
  style : String
  exploded : Bool
deriving Repr, DecidableEq

/-- The extracted `oas` tag data (`fieldConf` of the source): leading name and
the remaining comma-separated settings, with the origin token removed. -/
structure FieldConf where
  name : String
  conf : List String
deriving Repr, DecidableEq

/-- Per-field query configuration (`fieldQueryConf` of the source). -/
structure FieldQueryConf where
  name : String
  style : String
  exploded : Bool
  required : Bool
deriving Repr, DecidableEq

/-- The struct tag key used by the engine. -/
def fieldTagName : String := "oas"

/-- The scan of `parseFieldConf`'s settings loop: the switch matches each
UNtrimmed element against the four origin tokens, remembering the last match
and its index (`origin = v; found = i`). -/
def scanOrigin (l : List String) : String × Option Nat :=
  let step :=
    l.foldl
      (fun (acc : String × Option Nat × Nat) v =>
        if v = "body" ∨ v = "header" ∨ v = "path" ∨ v = "query" then
          (v, some acc.2.2, acc.2.2 + 1)
        else
          (acc.1, acc.2.1, acc.2.2 + 1))
      ("query", none, 0)
  (step.1, step.2.1)

/-- Go's swap-removal of the origin entry: `l[i] = l[len-1]; l = l[:len-1]`. -/
def swapRemove (l : List String) (i : Nat) : List String :=
  (l.set i (l.getLastD "")).take (l.length - 1)

/-- `parseFieldConf`: split the `oas` tag into the binding name (defaulting to
the lower-cased field identifier) and the settings list (trimmed, with the
last origin token removed), and return the declared origin (default
`"query"`). -/
def parseFieldConf (fname : String) (tag : Option String) : String × FieldConf :=
  match tag with
  | none => ("query", { name := strToLower fname, conf := [] })
  | some tagValue =>
    let values := splitString ',' tagValue
    let name0 := values.headD ""
    let confList := values.tail
    let name := if name0 = "" then strToLower fname else name0
    let scanned := scanOrigin confList
    let trimmed := confList.map trimSpace
    match scanned.2 with
    | none => (scanned.1, { name := name, conf := trimmed })
    | some i => (scanned.1, { name := name, conf := swapRemove trimmed i })

/-- The settings loop of `parseQueryFieldConf`: left-to-right, later settings
override earlier ones; an unrecognized token is a hard error. -/
def applySettings : FieldQueryConf → List String → Except String FieldQueryConf
  | conf, [] => .ok conf
  | conf, setting :: rest =>
    if setting = "required" then
      applySettings { conf with required := true } rest
    else if setting = "explode" then
      applySettings { conf with exploded := true } rest
    else if setting = "implode" then
      applySettings { conf with exploded := false } rest
    else if setting = "form" ∨ setting = "pipeDelimited" ∨ setting = "spaceDelimited" then
      applySettings { conf with style := setting, exploded := false } rest
    else if setting = "deepObject" then
      applySettings { conf with style := setting } rest
    else
      .error ("invalid part \x27" ++ setting ++ "\x27")

/-- `parseQueryFieldConf`: derive the per-field query configuration from the
decoder defaults and the tag settings; `deepObject` style forces exploded
(unless the settings list was empty, where the source returns early). -/
def parseQueryFieldConf (qc : QueryConf) (tagConf : FieldConf) : Except String FieldQueryConf :=
  let conf0 : FieldQueryConf :=
    { name := tagConf.name, style := qc.style, exploded := qc.exploded, required := false }
  if tagConf.conf.isEmpty then
    .ok conf0
  else
    match applySettings conf0 tagConf.conf with
    | .error e => .error e
    | .ok conf =>
      .ok (if conf.style = "deepObject" then { conf with exploded := true } else conf)

/-- `parseQueryValuesDeep`: scan every query key for the pattern
`<name>[<subkey>]` and map each matching `<subkey>` to that key's raw value
sequence. -/
def parseQueryValuesDeep (name : String) (query : QueryIndex) : QueryIndex :=
  query.filterMap fun kv =>
    match cutPre kv.1 (name ++ "[") with
    | none => none
    | some propName =>
      match cutSuf propName "]" with
      | none => none
      | some propName2 => some (propName2, kv.2)

/-- The delimiter switch of `parseQueryValues`: space for `spaceDelimited`,
pipe for `pipeDelimited`, comma otherwise (`form` and the default). -/
def styleDelim (style : String) : Char :=
  match style with
  | "spaceDelimited" => ' '
  | "pipeDelimited" => '|'
  | _ => ','

/-- `parseQueryValues`: resolve the raw value sequence of a non-deep query
field.  Absent key signals "not found" (`none`).  Exploded (or an empty found
sequence) is returned verbatim; imploded takes the last received value and
splits it on the style's delimiter (comma for `form` and by default, space
for `spaceDelimited`, pipe for `pipeDelimited`). -/
def parseQueryValues (conf : FieldQueryConf) (query : QueryIndex) : Option (List String) :=
  match lookupQuery query conf.name with
  | none => none
  | some values =>
    if conf.exploded || values.length == 0 then
      some values
    else
      let last := values.getLastD ""
      some (splitString (styleDelim conf.style) last)

/-- The required-field error message `query param '<name>' is required`. -/
def requiredMsg (name : String) : String :=
  "query param \x27" ++ name ++ "\x27 is required"

/-- The wrapping `query param '<name>': <err>` applied to coercion errors. -/
def wrapMsg (name : String) (e : String) : String :=
  "query param \x27" ++ name ++ "\x27: " ++ e

/-- The byte-slice test `t.Elem().Kind() == reflect.Uint8` of `setValue`. -/
def isUint8 : Shape → Bool
  | .sUint 8 => true
  | _ => false

/-- The recursive call `setValue(elem, []string{value})` of the source's
`setValue`, specialised to its always-singleton argument: coerce one raw
string into one slot.  Dispatch is by kind; `[]uint8` targets store the raw
bytes verbatim; a slice element that is itself a slice wraps the recursively
coerced single element; structs are not handled by `setValue` and fail with
the kind-switch default error. -/
def setOne : Shape → String → Except String GoValue
  | .sBool, value =>
    match parseBool value with
    | .ok v => .ok (.gBool v)
    | .error e => .error e
  | .sString, value => .ok (.gString value)
  | .sUint w, value =>
    match parseUint value w with
    | .ok v => .ok (.gUint w v)
    | .error e => .error e
  | .sInt w, value =>
    match parseInt value w with
    | .ok v => .ok (.gInt w v)
    | .error e => .error e
  | .sSlice elem, value =>
    if isUint8 elem then
      .ok (.gBytes (stringBytes value))
    else
      match setOne elem value with
      | .ok v => .ok (.gSlice [v])
      | .error e => .error e
  | .sStruct _, _ => .error ("unknown type: " ++ kindName (.sStruct .nil))

/-- The element loop of `setValue`'s slice case: coerce each raw value into a
fresh element and append in input order, failing on the first bad element. -/
def setList (elem : Shape) : List String → Except String (List GoValue)
  | [] => .ok []
  | v :: rest =>
    match setOne elem v with
    | .error e => .error e
    | .ok x =>
      match setList elem rest with
      | .error e => .error e
      | .ok xs => .ok (x :: xs)

/-- `setValue`: coerce a raw value sequence into a slot.  An empty sequence
leaves the slot untouched (its zero value in a fresh decode).  Otherwise
`value := values[0]`; a `[]uint8` slice stores `[]byte(value)` verbatim, any
other slice coerces every raw value element-wise, and every other kind
coerces the first value only. -/
def setValue (shape : Shape) (values : List String) : Except String GoValue :=
  match values with
  | [] => .ok (zeroValue shape)
  | value :: _ =>
    match shape with
    | .sSlice elem =>
      if isUint8 elem then
        .ok (.gBytes (stringBytes value))
      else
        match setList elem values with
        | .ok xs => .ok (.gSlice xs)
        | .error e => .error e
    | s => setOne s value

/-- The field loop of `setDeepValue`: for each sub-field, parse its tag, skip
it when `origin != "query" && name == "-"` (the source's condition, verbatim),
and otherwise `setValue` it from `query[conf.name]` (the nil slice when the
subkey is absent). -/
def setDeepFields : FieldList → QueryIndex → Except String (List (String × GoValue))
  | .nil, _ => .ok []
  | .cons fname tag fshape rest, query =>
    let pc := parseFieldConf fname tag
    if pc.1 ≠ "query" ∧ pc.2.name = "-" then
      match setDeepFields rest query with
      | .error e => .error e
      | .ok vs => .ok ((fname, zeroValue fshape) :: vs)
    else
      match setValue fshape ((lookupQuery query pc.2.name).getD []) with
      | .error e => .error e
      | .ok v =>
        match setDeepFields rest query with
        | .error e => .error e
        | .ok vs => .ok ((fname, v) :: vs)

/-- `setDeepValue`: a deep-object target must be a struct; bind each of its
fields from the sub-mapping via `setDeepFields`. -/
def setDeepValue (shape : Shape) (query : QueryIndex) : Except String GoValue :=
  match shape with
  | .sStruct fields =>
    match setDeepFields fields query with
    | .ok vs => .ok (.gStruct vs)
    | .error e => .error e
  | s => .error ("want struct for deepObject, got " ++ kindName s)

/-- `decodeQuery`: parse the field's query configuration; for `deepObject`
style build the sub-mapping, check required-ness of the whole object, and
descend via `setDeepValue`; otherwise resolve via `parseQueryValues`, report
the required error when the key is absent, and coerce via `setValue`.
Coercion errors are wrapped as `query param '<name>': <err>`. -/
def decodeQuery (qc : QueryConf) (shape : Shape) (conf : FieldConf) (query : QueryIndex) :
    Except String GoValue :=
  match parseQueryFieldConf qc conf with
  | .error e => .error e
  | .ok queryConf =>
    if queryConf.style = "deepObject" then
      let qv := parseQueryValuesDeep queryConf.name query
      if queryConf.required && qv.length == 0 then
        .error (requiredMsg queryConf.name)
      else
        match setDeepValue shape qv with
        | .ok v => .ok v
        | .error e => .error (wrapMsg queryConf.name e)
    else
      match parseQueryValues queryConf query with
      | none =>
        if queryConf.required then
          .error (requiredMsg queryConf.name)
        else
          .ok (zeroValue shape)
      | some qv =>
        match setValue shape qv with
        | .ok v => .ok v
        | .error e => .error (wrapMsg queryConf.name e)

/-- `decodeBody`: select the body decoder.  A declared `json`/`xml` setting
wins; otherwise the lower-cased `Accept` header is consulted; any other
outcome (including an empty format) is the configuration error
`want "xml" or "json", got unsupported "oas"` (the source prints the tag-key
constant in the message).  The returned token stands for the external
JSON/XML stream unmarshaler that is then invoked. -/
def decodeBody (conf : FieldConf) (accept : String) : Except String String :=
  let format :=
    if conf.conf.contains "json" then
      "json"
    else if conf.conf.contains "xml" then
      "xml"
    else
      let a := strToLower accept
      if hasPre a "application/json" then "json"
      else if hasPre a "application/xml" then "xml"
      else ""
  if format = "json" then
    .ok "json"
  else if format = "xml" then
    .ok "xml"
  else
    .error ("want \x22xml\x22 or \x22json\x22, got unsupported \x22" ++ fieldTagName ++ "\x22")

/-- `decodeHeaders`: deliberately unimplemented. -/
def decodeHeaders : Except String GoValue :=
  .error "unmarshaling header is not implemented"

/-- The data of an inbound request seen by the engine: the path parameters
(the request's path component, read by the default `r.PathValue` provider),
the raw URL query pairs in received order, and the `Accept` header. -/
structure Request where
  pathParams : List (String × String)
  rawQuery : List (String × List String)
  accept : String

/-- Lookup of a path parameter, empty string when absent (as `r.PathValue`). -/
def lookupPathD : List (String × String) → String → String
  | [], _ => ""
  | (k0, v) :: rest, k => if k0 = k then v else lookupPathD rest k

/-- The decoder configuration: the caller-supplied path-value provider (a
function of the request's path component and the parameter name) and the
default query policy. -/
structure Decoder where
  pathValue : List (String × String) → String → String
  query : QueryConf

/-- `NewDecoder()` defaults: `r.PathValue` lookup, exploded `form` style. -/
def NewDecoder : Decoder :=
  { pathValue := fun ps name => lookupPathD ps name
    query := { style := "form", exploded := true } }

/-- `%s`-printing of a `fieldConf` value, as Go's `fmt` renders the struct in
the path error message. -/
def fieldConfRepr (c : FieldConf) : String :=
  "\x7b" ++ c.name ++ " [" ++ String.intercalate " " c.conf ++ "]\x7d"

/-- The wrapping `path '<conf>': <err>` of path coercion errors (the source
formats the whole `fieldConf` value into the message). -/
def pathErrMsg (c : FieldConf) (e : String) : String :=
  "path \x27" ++ fieldConfRepr c ++ "\x27: " ++ e

/-- Build the case-insensitive query index: every raw key is stored under its
original and lower-cased spelling; value sequences of keys merged under one
lower-cased spelling are concatenated (`qv = append(qv, existing...)`). -/
def buildQueryIndex (raw : List (String × List String)) : QueryIndex :=
  raw.foldl
    (fun query p =>
      let lower := strToLower p.1
      let qv :=
        match lookupQuery query lower with
        | some existing => p.2 ++ existing
        | none => p.2
      mapInsert (mapInsert query p.1 qv) lower qv)
    []

/-- The loop body of `Decode` for one terminal (non-flattened) field: parse
the tag, skip a field named `"-"` entirely, then dispatch by origin — query
resolution, body decoding (handing the selected format to the external
unmarshaler `bodyDecode`), path binding (the provider's single result wrapped
in a one-element sequence and coerced), or the header not-implemented error. -/
def decodeField (d : Decoder) (r : Request) (bodyDecode : String → Except String GoValue)
    (query : QueryIndex) (fname : String) (tag : Option String) (fshape : Shape) :
    Except String GoValue :=
  let pc := parseFieldConf fname tag
  if pc.2.name = "-" then
    .ok (zeroValue fshape)
  else if pc.1 = "query" then
    decodeQuery d.query fshape pc.2 query
  else if pc.1 = "body" then
    match decodeBody pc.2 r.accept with
    | .error e => .error e
    | .ok format => bodyDecode format
  else if pc.1 = "path" then
    match setValue fshape [d.pathValue r.pathParams pc.2.name] with
    | .error e => .error (pathErrMsg pc.2 e)
    | .ok v => .ok v
  else
    decodeHeaders

mutual
/-- The per-field decision of `flattenFields`: a struct-shaped field of query
origin without `deepObject` style is expanded into its children's terminal
fields; every other field is terminal. -/
def flattenShape (fname : String) (tag : Option String) (origin : String)
    (confSettings : List String) : Shape → List (String × Option String × Shape)
  | .sStruct subfields =>
    if origin = "query" && !(confSettings.contains "deepObject") then
      flattenFields subfields
    else
      [(fname, tag, .sStruct subfields)]
  | s => [(fname, tag, s)]

/-- `flattenFields`: the depth-first, declaration-order list of terminal
bindable fields of a struct.  (The `encoding.TextUnmarshaler` early-out of
the source has no inhabitant in the embedded type universe.) -/
def flattenFields : FieldList → List (String × Option String × Shape)
  | .nil => []
  | .cons fname tag fshape rest =>
    let pc := parseFieldConf fname tag
    flattenShape fname tag pc.1 pc.2.conf fshape ++ flattenFields rest
end

/-- Decode every terminal field in order, failing fast at the first error. -/
def decodeFieldList (d : Decoder) (r : Request) (bodyDecode : String → Except String GoValue)
    (query : QueryIndex) : List (String × Option String × Shape) →
    Except String (List (String × GoValue))
  | [] => .ok []
  | (fname, tag, fshape) :: rest =>
    match decodeField d r bodyDecode query fname tag fshape with
    | .error e => .error e
    | .ok v =>
      match decodeFieldList d r bodyDecode query rest with
      | .error e => .error e
      | .ok vs => .ok ((fname, v) :: vs)

/-- The decode orchestrator: build the query index once, flatten the target
struct's fields, and decode each terminal field.  The decoded assignments are
returned in flattened order (the source writes them in place into the nested
struct).  A non-struct target is the usage error of the source. -/
def Decode (d : Decoder) (bodyDecode : String → Except String GoValue) (r : Request)
    (shape : Shape) : Except String GoValue :=
  match shape with
  | .sStruct fields =>
    match decodeFieldList d r bodyDecode (buildQueryIndex r.rawQuery) (flattenFields fields) with
    | .ok vs => .ok (.gStruct vs)
    | .error e => .error e
  | _ => .error "call of Decode passes pointer to non-struct as second argument"

/-- The non-slice scalar kinds of the embedded universe (the targets coerced
from a single raw value by `setValue`). -/
def isScalar : Shape → Prop
  | .sBool => True
  | .sString => True
  | .sUint _ => True
  | .sInt _ => True
  | _ => False

/-! ### Supporting lemmas -/

theorem getLastD_of_ne_nil {α : Type} (l : List α) (h : l ≠ []) (d : α) :
    l.getLastD d = l.getLast h := by
  rw [List.getLastD_eq_getLast?, List.getLast?_eq_getLast l h]
  rfl

theorem cutPre_eq_some {s pre p : String} : cutPre s pre = some p ↔ s = pre ++ p := by
  unfold cutPre
  constructor
  · intro h
    by_cases hp : pre.data.isPrefixOf s.data
    · rw [if_pos hp] at h
      obtain ⟨t, ht⟩ := List.isPrefixOf_iff_prefix.mp hp
      have hpd : p.data = s.data.drop pre.data.length := by
        rw [← Option.some.inj h]
      apply String.ext
      rw [String.data_append, hpd, ← ht, List.drop_left]
    · rw [if_neg hp] at h
      exact absurd h (by simp)
  · intro h
    subst h
    have hp : pre.data.isPrefixOf (pre ++ p).data := by
      rw [String.data_append]
      exact List.isPrefixOf_iff_prefix.mpr ⟨p.data, rfl⟩
    rw [if_pos hp]
    congr 1
    apply String.ext
    show (pre ++ p).data.drop pre.data.length = p.data
    rw [String.data_append, List.drop_left]

theorem cutSuf_eq_some {s suf p : String} : cutSuf s suf = some p ↔ s = p ++ suf := by
  unfold cutSuf
  constructor
  · intro h
    by_cases hp : suf.data.isSuffixOf s.data
    · rw [if_pos hp] at h
      obtain ⟨t, ht⟩ := List.isSuffixOf_iff_suffix.mp hp
      have hlen : s.data.length - suf.data.length = t.length := by
        rw [← ht, List.length_append]
        omega
      have hpd : p.data = t := by
        rw [← Option.some.inj h]
        show s.data.take (s.data.length - suf.data.length) = t
        rw [hlen, ← ht]
        exact List.take_left t suf.data
      apply String.ext
      rw [String.data_append, hpd, ht]
    · rw [if_neg hp] at h
      exact absurd h (by simp)
  · intro h
    subst h
    have hp : suf.data.isSuffixOf (p ++ suf).data := by
      rw [String.data_append]
      exact List.isSuffixOf_iff_suffix.mpr ⟨p.data, rfl⟩
    rw [if_pos hp]
    congr 1
    apply String.ext
    show (p ++ suf).data.take ((p ++ suf).data.length - suf.data.length) = p.data
    rw [String.data_append, List.length_append]
    have hn : p.data.length + suf.data.length - suf.data.length = p.data.length := by omega
    rw [hn]
    exact List.take_left p.data suf.data

theorem wrapMsg_ne_requiredMsg (n e : String) : wrapMsg n e ≠ requiredMsg n := by
  intro h
  have hd := congrArg String.data h
  simp only [wrapMsg, requiredMsg, String.data_append, List.append_assoc] at hd
  have h2 := List.append_cancel_left hd
  have h3 := List.append_cancel_left h2
  simp only [List.cons_append, List.nil_append, List.cons.injEq] at h3
  exact absurd h3.2.1 (by decide)

theorem parseQueryValues_eq_none_iff (conf : FieldQueryConf) (query : QueryIndex) :
    parseQueryValues conf query = none ↔ lookupQuery query conf.name = none := by
  unfold parseQueryValues
  cases h : lookupQuery query conf.name with
  | none => simp
  | some vs =>
    simp only [reduceCtorEq, iff_false]
    split <;> simp

theorem styleDelim_default {s : String} (h1 : s ≠ "spaceDelimited") (h2 : s ≠ "pipeDelimited") :
    styleDelim s = ',' := by
  unfold styleDelim
  split
  · exact absurd rfl h1
  · exact absurd rfl h2
  · rfl

theorem splitString_empty (d : Char) : splitString d "" = [""] := rfl

/-- The source's recursive call `setValue(elem, []string{value})` coincides
with `setOne` — the equivalence justifying the specialisation. -/
theorem setValue_singleton (shape : Shape) (v : String) :
    setValue shape [v] = setOne shape v := by
  cases shape with
  | sBool => rfl
  | sString => rfl
  | sUint w => rfl
  | sInt w => rfl
  | sStruct fields => rfl
  | sSlice elem =>
    show (if isUint8 elem then _ else _) = (if isUint8 elem then _ else _)
    cases h : isUint8 elem with
    | true => rfl
    | false => cases hs : setOne elem v <;> simp [setList, hs]

/-! ### Claim theorems -/

/-- C1: for a query-origin field declared imploded (`exploded = false`) whose
key is present in the query index with one or more values, the resolver takes
exactly one element — the LAST received value — and splits it on the style's
delimiter: a comma for `form` (and any other non-special style), a single
space for `spaceDelimited`, a pipe for `pipeDelimited`. -/
theorem imploded_resolver_takes_last (conf : FieldQueryConf) (query : QueryIndex)
    (vs : List String) (hlook : lookupQuery query conf.name = some vs) (hne : vs ≠ [])
    (hexp : conf.exploded = false) :
    (conf.style ≠ "spaceDelimited" → conf.style ≠ "pipeDelimited" →
      parseQueryValues conf query = some (splitString ',' (vs.getLast hne)))
    ∧ (conf.style = "spaceDelimited" →
      parseQueryValues conf query = some (splitString ' ' (vs.getLast hne)))
    ∧ (conf.style = "pipeDelimited" →
      parseQueryValues conf query = some (splitString '|' (vs.getLast hne))) := by
  have hlen : (vs.length == 0) = false := by
    cases vs with
    | nil => exact absurd rfl hne
    | cons a t => rfl
  have hbase : parseQueryValues conf query =
      some (splitString (styleDelim conf.style) (vs.getLast hne)) := by
    unfold parseQueryValues
    simp only [hlook, hexp, hlen, Bool.false_or, Bool.false_eq_true, if_false]
    rw [getLastD_of_ne_nil vs hne]
  refine ⟨?_, ?_, ?_⟩
  · intro h1 h2
    rw [hbase, styleDelim_default h1 h2]
  · intro h1
    rw [hbase, h1]
    rfl
  · intro h1
    rw [hbase, h1]
    rfl

/-- C1 witness: a pipe-style imploded field received two exploded occurrences;
the resolver picks the last one, `"3|4"`, and splits it on the pipe. -/
theorem imploded_resolver_takes_last_witness :
    lookupQuery [("id", ["1|2", "3|4"])] "id" = some ["1|2", "3|4"]
    ∧ (["1|2", "3|4"] : List String) ≠ []
    ∧ (⟨"id", "pipeDelimited", false, false⟩ : FieldQueryConf).exploded = false
    ∧ parseQueryValues ⟨"id", "pipeDelimited", false, false⟩ [("id", ["1|2", "3|4"])]
        = some ["3", "4"] := by
  refine ⟨rfl, by decide, rfl, ?_⟩
  have h := (imploded_resolver_takes_last ⟨"id", "pipeDelimited", false, false⟩
      [("id", ["1|2", "3|4"])] ["1|2", "3|4"] rfl (by decide) rfl).2.2 rfl
  rw [h]
  rfl

/-- C2 (code-bug evaluation): with an empty declared body format and an
`Accept` header naming neither json nor xml (or no `Accept` header at all),
`decodeBody` returns the unsupported-format configuration error instead of
defaulting to json as the package documentation states. -/
theorem body_format_no_json_default :
    decodeBody ⟨"entity", []⟩ "text/plain"
      = .error "want \x22xml\x22 or \x22json\x22, got unsupported \x22oas\x22"
    ∧ decodeBody ⟨"entity", []⟩ ""
      = .error "want \x22xml\x22 or \x22json\x22, got unsupported \x22oas\x22"
    ∧ decodeBody ⟨"entity", []⟩ "application/json" = .ok "json" :=
  ⟨rfl, rfl, rfl⟩

/-- C4 (code-bug evaluation): a deep-object sub-field whose tag name is `"-"`
is NOT excluded: the skip condition `origin != "query" && name == "-"` of
`setDeepValue` is false for a default-origin field, so a query key
`filter[-]=x` binds the sub-field to `"x"` instead of leaving it at its zero
value. -/
theorem deep_dash_subfield_is_bound :
    decodeQuery ⟨"form", true⟩ (.sStruct (.cons "Field" (some "-") .sString .nil))
        ⟨"filter", ["deepObject"]⟩ [("filter[-]", ["x"])]
      = .ok (.gStruct [("Field", .gString "x")]) := rfl

/-- C5 counterexample: a `required` sub-field of a deep-object record with no
matching subkey does NOT trigger the required-missing error — the deep
descent ignores the sub-field's `required` setting and leaves the field at
its zero value. -/
theorem deep_required_subfield_no_error :
    decodeQuery ⟨"form", true⟩
        (.sStruct (.cons "Search" (some "find,required") .sString .nil))
        ⟨"filter", ["deepObject"]⟩ [("filter[other]", ["y"])]
      = .ok (.gStruct [("Search", .gString "")]) := rfl

/-- C7: a slice-of-8-bit-unsigned target with a non-empty raw value sequence
stores the UTF-8 bytes of the FIRST raw value verbatim (opaque byte storage),
not an element-wise integer parse. -/
theorem byte_slice_stored_verbatim (value : String) (rest : List String) :
    setValue (.sSlice (.sUint 8)) (value :: rest) = .ok (.gBytes (stringBytes value)) := rfl

/-- C10: a non-slice scalar target coerces only the first element of the raw
value sequence; any remaining elements are silently ignored and never by
themselves cause an error. -/
theorem scalar_uses_first_raw_value (shape : Shape) (h : isScalar shape) (v : String)
    (rest : List String) : setValue shape (v :: rest) = setValue shape [v] := by
  cases shape with
  | sBool => rfl
  | sString => rfl
  | sUint w => rfl
  | sInt w => rfl
  | sSlice elem => exact absurd h (by simp [isScalar])
  | sStruct fields => exact absurd h (by simp [isScalar])

/-- C10 witness: a boolean field given two raw values decodes from the first
one only. -/
theorem scalar_uses_first_raw_value_witness :
    isScalar .sBool ∧ setValue .sBool ["true", "false"] = setValue .sBool ["true"] :=
  ⟨trivial, scalar_uses_first_raw_value .sBool trivial "true" ["false"]⟩

/-- C3: for a non-deep query field, the decode fails with the required-missing
error (which names the parameter) exactly when the field is required and no
key for its name is present in the query index at all; and a key present with
an explicitly empty value resolves to the one-element sequence `[""]`, never
an absent result. -/
theorem required_error_iff_absent (qc : QueryConf) (shape : Shape) (conf : FieldConf)
    (query : QueryIndex) (qconf : FieldQueryConf)
    (hok : parseQueryFieldConf qc conf = .ok qconf)
    (hstyle : qconf.style ≠ "deepObject") :
    (decodeQuery qc shape conf query = .error (requiredMsg qconf.name)
        ↔ qconf.required = true ∧ lookupQuery query qconf.name = none)
    ∧ (lookupQuery query qconf.name = some [""] →
        parseQueryValues qconf query = some [""]) := by
  have hq : decodeQuery qc shape conf query =
      match parseQueryValues qconf query with
      | none =>
        if qconf.required then .error (requiredMsg qconf.name) else .ok (zeroValue shape)
      | some qv =>
        match setValue shape qv with
        | .ok v => .ok v
        | .error e => .error (wrapMsg qconf.name e) := by
    unfold decodeQuery
    simp only [hok]
    rw [if_neg hstyle]
  refine ⟨?_, ?_⟩
  · cases hl : lookupQuery query qconf.name with
    | none =>
      have hpv : parseQueryValues qconf query = none :=
        (parseQueryValues_eq_none_iff qconf query).mpr hl
      rw [hq, hpv]
      cases hr : qconf.required with
      | true => simp
      | false => simp
    | some vs =>
      have hpv : parseQueryValues qconf query ≠ none := by
        intro hcon
        rw [parseQueryValues_eq_none_iff] at hcon
        rw [hl] at hcon
        cases hcon
      obtain ⟨qv, hqv⟩ := Option.ne_none_iff_exists'.mp hpv
      rw [hq, hqv]
      show (match setValue shape qv with
            | .ok v => Except.ok v
            | .error e => Except.error (wrapMsg qconf.name e))
          = Except.error (requiredMsg qconf.name)
        ↔ qconf.required = true ∧ some vs = none
      constructor
      · intro h
        cases hs : setValue shape qv with
        | ok v =>
          rw [hs] at h
          simp at h
        | error e =>
          rw [hs] at h
          simp only [Except.error.injEq] at h
          exact absurd h (wrapMsg_ne_requiredMsg qconf.name e)
      · rintro ⟨-, habs⟩
        cases habs
  · intro hl
    unfold parseQueryValues
    simp only [hl]
    cases he : qconf.exploded with
    | true => rfl
    | false => rfl

/-- C3 witness: a required field with no key errors with the message naming
it; the same field with `?fields=` resolves to `[""]`. -/
theorem required_error_iff_absent_witness :
    parseQueryFieldConf ⟨"form", true⟩ ⟨"fields", ["required"]⟩
      = .ok ⟨"fields", "form", true, true⟩
    ∧ ("form" : String) ≠ "deepObject"
    ∧ decodeQuery ⟨"form", true⟩ .sString ⟨"fields", ["required"]⟩ []
      = .error (requiredMsg "fields")
    ∧ parseQueryValues ⟨"fields", "form", true, true⟩ [("fields", [""])] = some [""] := by
  refine ⟨rfl, by decide, ?_, ?_⟩
  · exact (required_error_iff_absent ⟨"form", true⟩ .sString ⟨"fields", ["required"]⟩ []
      ⟨"fields", "form", true, true⟩ rfl (by decide)).1.mpr ⟨rfl, rfl⟩
  · exact (required_error_iff_absent ⟨"form", true⟩ .sString ⟨"fields", ["required"]⟩
      [("fields", [""])] ⟨"fields", "form", true, true⟩ rfl (by decide)).2 rfl

/-- C8: a field whose tag declares path origin is decoded solely by coercing
the one-element sequence holding the path-value provider's single result for
the field's tag-resolved name; the query index has no influence, so two
requests differing only in their query string yield the same value for the
field. -/
theorem path_origin_independent_of_query (d : Decoder) (r : Request)
    (bodyDecode : String → Except String GoValue) (query : QueryIndex) (fname : String)
    (tag : Option String) (fshape : Shape) (conf : FieldConf)
    (hp : parseFieldConf fname tag = ("path", conf)) (hname : conf.name ≠ "-") :
    (decodeField d r bodyDecode query fname tag fshape
      = match setValue fshape [d.pathValue r.pathParams conf.name] with
        | .error e => .error (pathErrMsg conf e)
        | .ok v => .ok v)
    ∧ ∀ (query2 : QueryIndex) (rawQuery2 : List (String × List String)),
        decodeField d { r with rawQuery := rawQuery2 } bodyDecode query2 fname tag fshape
          = decodeField d r bodyDecode query fname tag fshape := by
  have hbase : ∀ (q : QueryIndex) (r2 : Request), r2.pathParams = r.pathParams →
      decodeField d r2 bodyDecode q fname tag fshape
        = match setValue fshape [d.pathValue r.pathParams conf.name] with
          | .error e => .error (pathErrMsg conf e)
          | .ok v => .ok v := by
    intro q r2 hr
    unfold decodeField
    simp only [hp]
    rw [if_neg hname, if_neg (by decide : ¬("path" : String) = "query"),
      if_neg (by decide : ¬("path" : String) = "body")]
    simp only [if_true, hr]
  refine ⟨hbase query r rfl, ?_⟩
  intro query2 rawQuery2
  rw [hbase query2 { r with rawQuery := rawQuery2 } rfl, hbase query r rfl]

/-- C8 witness: with path parameter `id = 7`, adding the query `?id=999` does
not change the decoded path field, which is `7`. -/
theorem path_origin_independent_of_query_witness :
    parseFieldConf "ClientID" (some "id,path") = ("path", ⟨"id", []⟩)
    ∧ decodeField NewDecoder ⟨[("id", "7")], [("id", ["999"])], ""⟩
        (fun _ => .ok (.gString "")) [("id", ["999"])] "ClientID" (some "id,path") (.sInt 64)
      = decodeField NewDecoder ⟨[("id", "7")], [], ""⟩
        (fun _ => .ok (.gString "")) [] "ClientID" (some "id,path") (.sInt 64)
    ∧ decodeField NewDecoder ⟨[("id", "7")], [("id", ["999"])], ""⟩
        (fun _ => .ok (.gString "")) [("id", ["999"])] "ClientID" (some "id,path") (.sInt 64)
      = .ok (.gInt 64 7) := by
  refine ⟨rfl, ?_, rfl⟩
  exact (path_origin_independent_of_query NewDecoder ⟨[("id", "7")], [], ""⟩
    (fun _ => .ok (.gString "")) [] "ClientID" (some "id,path") (.sInt 64) ⟨"id", []⟩
    rfl (by decide)).2 [("id", ["999"])] [("id", ["999"])]

/-- C5 (amended): the deep-object resolver's sub-mapping contains exactly the
pairs `(sub, vs)` whose key spells `name[sub]` in the query index; once the
whole-object required check passes, the deep decode delegates to
`setDeepValue` on that sub-mapping; and each sub-field of the nested record
is bound by DIRECT lookup of its own tag-resolved name in the sub-mapping,
coercing the found raw sequence exploded-style via `setValue` — the
sub-field's style and required settings take no effect during the descent,
and a required sub-field with no matching subkey is silently left at its zero
value. -/
theorem deep_subfield_direct_lookup (qc : QueryConf) (conf : FieldConf) (query : QueryIndex)
    (qconf : FieldQueryConf) (fname : String) (tag : Option String) (fshape : Shape)
    (origin : String) (sconf : FieldConf)
    (hok : parseQueryFieldConf qc conf = .ok qconf)
    (hstyle : qconf.style = "deepObject")
    (hreq : (qconf.required && (parseQueryValuesDeep qconf.name query).length == 0) = false)
    (hsub : parseFieldConf fname tag = (origin, sconf))
    (hskip : ¬(origin ≠ "query" ∧ sconf.name = "-")) :
    (∀ (sub : String) (vs : List String),
      (sub, vs) ∈ parseQueryValuesDeep qconf.name query
        ↔ (qconf.name ++ "[" ++ sub ++ "]", vs) ∈ query)
    ∧ (∀ shape : Shape,
        decodeQuery qc shape conf query
          = match setDeepValue shape (parseQueryValuesDeep qconf.name query) with
            | .ok v => .ok v
            | .error e => .error (wrapMsg qconf.name e))
    ∧ (setDeepValue (.sStruct (.cons fname tag fshape .nil))
          (parseQueryValuesDeep qconf.name query)
        = match setValue fshape
            ((lookupQuery (parseQueryValuesDeep qconf.name query) sconf.name).getD []) with
          | .ok v => .ok (.gStruct [(fname, v)])
          | .error e => .error e)
    ∧ (lookupQuery (parseQueryValuesDeep qconf.name query) sconf.name = none →
        setDeepValue (.sStruct (.cons fname tag fshape .nil))
            (parseQueryValuesDeep qconf.name query)
          = .ok (.gStruct [(fname, zeroValue fshape)])) := by
  have hmem : ∀ (sub : String) (vs : List String),
      (sub, vs) ∈ parseQueryValuesDeep qconf.name query
        ↔ (qconf.name ++ "[" ++ sub ++ "]", vs) ∈ query := by
    intro sub vs
    unfold parseQueryValuesDeep
    rw [List.mem_filterMap]
    constructor
    · rintro ⟨⟨k, vsk⟩, hmemq, hf⟩
      cases hc1 : cutPre k (qconf.name ++ "[") with
      | none =>
        simp only [hc1] at hf
        exact Option.noConfusion hf
      | some p =>
        simp only [hc1] at hf
        cases hc2 : cutSuf p "]" with
        | none =>
          simp only [hc2] at hf
          exact Option.noConfusion hf
        | some s2 =>
          simp only [hc2] at hf
          obtain ⟨hsub2, hvs⟩ := Prod.mk.inj (Option.some.inj hf)
          have h1 := cutPre_eq_some.mp hc1
          have h2 := cutSuf_eq_some.mp hc2
          have hk : k = qconf.name ++ "[" ++ sub ++ "]" := by
            rw [h1, h2, hsub2, ← String.append_assoc]
          rw [← hk, ← hvs]
          exact hmemq
    · intro hmemq
      refine ⟨(qconf.name ++ "[" ++ sub ++ "]", vs), hmemq, ?_⟩
      have hc1 : cutPre (qconf.name ++ "[" ++ sub ++ "]") (qconf.name ++ "[")
          = some (sub ++ "]") :=
        cutPre_eq_some.mpr (by rw [← String.append_assoc])
      have hc2 : cutSuf (sub ++ "]") "]" = some sub := cutSuf_eq_some.mpr rfl
      simp only [hc1, hc2]
  have hdeleg : ∀ shape : Shape,
      decodeQuery qc shape conf query
        = match setDeepValue shape (parseQueryValuesDeep qconf.name query) with
          | .ok v => .ok v
          | .error e => .error (wrapMsg qconf.name e) := by
    intro shape
    unfold decodeQuery
    simp only [hok]
    rw [if_pos hstyle, hreq]
    rfl
  have hfield : setDeepValue (.sStruct (.cons fname tag fshape .nil))
        (parseQueryValuesDeep qconf.name query)
      = match setValue fshape
          ((lookupQuery (parseQueryValuesDeep qconf.name query) sconf.name).getD []) with
        | .ok v => .ok (.gStruct [(fname, v)])
        | .error e => .error e := by
    show (match setDeepFields (.cons fname tag fshape .nil)
            (parseQueryValuesDeep qconf.name query) with
          | .ok vs => Except.ok (GoValue.gStruct vs)
          | .error e => Except.error e) = _
    unfold setDeepFields
    simp only [hsub]
    rw [if_neg hskip]
    cases hs : setValue fshape
        ((lookupQuery (parseQueryValuesDeep qconf.name query) sconf.name).getD []) with
    | ok v => rfl
    | error e => rfl
  refine ⟨hmem, hdeleg, hfield, ?_⟩
  intro hnone
  rw [hfield, hnone]
  rfl

/-- C5 witness: a deep field `filter` with sub-field bound to `find`: the key
`filter[find]=x` lands in the sub-mapping and the sub-field decodes to `"x"`
by direct name lookup. -/
theorem deep_subfield_direct_lookup_witness :
    parseQueryFieldConf ⟨"form", true⟩ ⟨"filter", ["deepObject"]⟩
      = .ok ⟨"filter", "deepObject", true, false⟩
    ∧ parseFieldConf "Search" (some "find") = ("query", ⟨"find", []⟩)
    ∧ ("find", ["x"]) ∈ parseQueryValuesDeep "filter" [("filter[find]", ["x"])]
    ∧ decodeQuery ⟨"form", true⟩ (.sStruct (.cons "Search" (some "find") .sString .nil))
        ⟨"filter", ["deepObject"]⟩ [("filter[find]", ["x"])]
      = .ok (.gStruct [("Search", .gString "x")]) := by
  have h := deep_subfield_direct_lookup ⟨"form", true⟩ ⟨"filter", ["deepObject"]⟩
    [("filter[find]", ["x"])] ⟨"filter", "deepObject", true, false⟩
    "Search" (some "find") .sString "query" ⟨"find", []⟩ rfl rfl rfl rfl (by decide)
  refine ⟨rfl, rfl, ?_, ?_⟩
  · exact (h.1 "find" ["x"]).mpr (by decide)
  · rw [h.2.1 (.sStruct (.cons "Search" (some "find") .sString .nil)), h.2.2.1]
    rfl

/-- C6: for an unsigned or signed integer target of width `w` bits, coercion
parses the raw value with a bit-width ceiling equal to `w` and fails with an
error when the decimal value of the string overflows the target's range,
never silently truncating; on success the stored value equals the parsed
integer. -/
theorem int_coercion_respects_width (w : Nat) (hw : w ∈ ([8, 16, 32, 64] : List Nat))
    (value : String) (rest : List String) :
    (∀ n : Nat, decDigits value = some n →
      (n < 2 ^ w → setValue (.sUint w) (value :: rest) = .ok (.gUint w n))
      ∧ (2 ^ w ≤ n → ∃ e, setValue (.sUint w) (value :: rest) = .error e))
    ∧ (∀ m : Int, decimalInt value = some m →
      (-((2 : Int) ^ (w - 1)) ≤ m ∧ m < (2 : Int) ^ (w - 1) →
        setValue (.sInt w) (value :: rest) = .ok (.gInt w m))
      ∧ ((m < -((2 : Int) ^ (w - 1)) ∨ (2 : Int) ^ (w - 1) ≤ m) →
        ∃ e, setValue (.sInt w) (value :: rest) = .error e)) := by
  have hw1 : 1 ≤ w := by
    simp only [List.mem_cons, List.not_mem_nil, or_false] at hw
    rcases hw with h | h | h | h <;> omega
  obtain ⟨w1, rfl⟩ : ∃ w1, w = w1 + 1 := ⟨w - 1, by omega⟩
  simp only [Nat.add_sub_cancel]
  have h2w : 2 ^ (w1 + 1) = 2 * 2 ^ w1 := by
    rw [pow_succ]
    ring
  constructor
  · intro n hn
    have hsv : setValue (.sUint (w1 + 1)) (value :: rest) =
        (match parseUint value (w1 + 1) with
         | .ok v => Except.ok (GoValue.gUint (w1 + 1) v)
         | .error e => Except.error e) := rfl
    have hpu : parseUint value (w1 + 1) =
        if n < 2 ^ (w1 + 1) then .ok n
        else .error (numErr "ParseUint" value "value out of range") := by
      simp only [parseUint, hn]
    constructor
    · intro hlt
      rw [hsv, hpu, if_pos hlt]
    · intro hge
      refine ⟨numErr "ParseUint" value "value out of range", ?_⟩
      rw [hsv, hpu, if_neg (by omega)]
  · intro m hm
    have hsv : setValue (.sInt (w1 + 1)) (value :: rest) =
        (match parseInt value (w1 + 1) with
         | .ok v => Except.ok (GoValue.gInt (w1 + 1) v)
         | .error e => Except.error e) := rfl
    obtain ⟨neg, cs, hp⟩ : ∃ neg cs, splitSign value = (neg, cs) := ⟨_, _, rfl⟩
    simp only [decimalInt, hp] at hm
    obtain ⟨un, hun, hm2⟩ := Option.map_eq_some'.mp hm
    have hpi : parseInt value (w1 + 1) =
        (if 2 ^ (w1 + 1) ≤ un then
          Except.error (numErr "ParseInt" value "value out of range")
         else if !neg ∧ 2 ^ w1 ≤ un then
          Except.error (numErr "ParseInt" value "value out of range")
         else if neg ∧ 2 ^ w1 < un then
          Except.error (numErr "ParseInt" value "value out of range")
         else Except.ok (if neg then -(un : Int) else (un : Int))) := by
      simp only [parseInt, hp, hun, Nat.add_sub_cancel]
    have hCpos : (0 : Int) < (2 : Int) ^ w1 := by positivity
    have hbridge : ((2 ^ w1 : Nat) : Int) = (2 : Int) ^ w1 := by
      push_cast
      ring
    cases neg with
    | false =>
      simp only [Bool.false_eq_true, if_false] at hm2
      have hm2c : ((un : Nat) : Int) = m := by exact_mod_cast hm2
      subst hm2c
      constructor
      · rintro ⟨h1, h2⟩
        have hn2 : un < 2 ^ w1 := by omega
        rw [hsv, hpi, if_neg (by omega),
          if_neg (fun hcon => absurd hcon.2 (by omega)),
          if_neg (fun hcon => Bool.noConfusion hcon.1)]
        rfl
      · intro hover
        have hge : 2 ^ w1 ≤ un := by rcases hover with h | h <;> omega
        refine ⟨numErr "ParseInt" value "value out of range", ?_⟩
        rw [hsv, hpi]
        by_cases hb : 2 ^ (w1 + 1) ≤ un
        · rw [if_pos hb]
        · rw [if_neg hb, if_pos ⟨rfl, hge⟩]
    | true =>
      simp only [if_true] at hm2
      have hm2c : -((un : Nat) : Int) = m := by exact_mod_cast hm2
      subst hm2c
      constructor
      · rintro ⟨h1, h2⟩
        have hn2 : un ≤ 2 ^ w1 := by omega
        rw [hsv, hpi, if_neg (by omega),
          if_neg (fun hcon => Bool.noConfusion hcon.1),
          if_neg (fun hcon => absurd hcon.2 (by omega))]
        rfl
      · intro hover
        have hgt : 2 ^ w1 < un := by rcases hover with h | h <;> omega
        refine ⟨numErr "ParseInt" value "value out of range", ?_⟩
        rw [hsv, hpi]
        by_cases hb : 2 ^ (w1 + 1) ≤ un
        · rw [if_pos hb]
        · rw [if_neg hb, if_neg (fun hcon => Bool.noConfusion hcon.1), if_pos ⟨rfl, hgt⟩]

/-- C6 witness: at width 8, `"255"` stores 255 but `"256"` overflows; for the
signed target `"-128"` stores −128 but `"128"` overflows. -/
theorem int_coercion_respects_width_witness :
    setValue (.sUint 8) ["255"] = .ok (.gUint 8 255)
    ∧ (∃ e, setValue (.sUint 8) ["256"] = .error e)
    ∧ setValue (.sInt 8) ["-128"] = .ok (.gInt 8 (-128))
    ∧ (∃ e, setValue (.sInt 8) ["128"] = .error e) := by
  refine ⟨?_, ?_, ?_, ?_⟩
  · exact ((int_coercion_respects_width 8 (by decide) "255" []).1 255 rfl).1 (by norm_num)
  · exact ((int_coercion_respects_width 8 (by decide) "256" []).1 256 rfl).2 (by norm_num)
  · exact ((int_coercion_respects_width 8 (by decide) "-128" []).2 (-128) (by decide)).1
      (by norm_num)
  · exact ((int_coercion_respects_width 8 (by decide) "128" []).2 128 (by decide)).2
      (by norm_num)

end GoReq
